import Mathlib

/-!
Verification of the presentation rendering and capture engine of the
table_designer repository.  Text is modelled as `List Char`, wall-clock
times and pixel measurements as `ℚ`, step indices as `ℤ`.  The width
measurement performed by the host's `ctx.measureText` is an arbitrary
parameter `measure`.
-/

namespace TableDesigner

/-- The space character: the separator used by the word-wrap primitive
(`text.split(" ")` in `getLines`, src/utils/videoRenderer.ts line 5). -/
def spc : Char := Char.ofNat 32

/-- Greedy accumulation loop of `getLines` (src/utils/videoRenderer.ts
lines 9-18): each further word is appended to `currentLine` (separated by
a space) while the measured width of the extended line is strictly below
`maxWidth`; otherwise the current line is emitted and the word starts a
new line. -/
def getLinesGo (measure : List Char → ℚ) (maxWidth : ℚ) :
    List Char → List (List Char) → List (List Char)
  | currentLine, [] => [currentLine]
  | currentLine, word :: rest =>
    if measure (currentLine ++ spc :: word) < maxWidth then
      getLinesGo measure maxWidth (currentLine ++ spc :: word) rest
    else
      currentLine :: getLinesGo measure maxWidth word rest

/-- The shared word-wrap primitive `getLines(ctx, text, maxWidth)`
(src/utils/videoRenderer.ts lines 4-21).  The text is split into words at
single spaces, the first word seeds the current line, and the remaining
words are folded by `getLinesGo`.  (`text.split(" ")` never yields an
empty array, so the first match arm is unreachable.) -/
def getLines (measure : List Char → ℚ) (text : List Char) (maxWidth : ℚ) :
    List (List Char) :=
  match text.splitOn spc with
  | [] => [[]]
  | w :: ws => getLinesGo measure maxWidth w ws

lemma getLinesGo_ne_nil (measure : List Char → ℚ) (maxWidth : ℚ)
    (cur : List Char) (ws : List (List Char)) :
    getLinesGo measure maxWidth cur ws ≠ [] := by
  induction ws generalizing cur with
  | nil => simp [getLinesGo]
  | cons w rest ih =>
    simp only [getLinesGo]
    split
    · exact ih _
    · simp

lemma intercalate_cons_cons (x : α) (a b : List α) (l : List (List α)) :
    [x].intercalate (a :: b :: l) = a ++ x :: [x].intercalate (b :: l) := by
  simp [List.intercalate, List.intersperse_cons_cons]

lemma intercalate_getLinesGo (measure : List Char → ℚ) (maxWidth : ℚ)
    (cur : List Char) (ws : List (List Char)) :
    [spc].intercalate (getLinesGo measure maxWidth cur ws) =
      [spc].intercalate (cur :: ws) := by
  induction ws generalizing cur with
  | nil => simp [getLinesGo]
  | cons w rest ih =>
    simp only [getLinesGo]
    split
    · rw [ih, intercalate_cons_cons]
      rcases rest with - | ⟨r, rs⟩
      · simp [List.intercalate]
      · rw [intercalate_cons_cons, intercalate_cons_cons]
        simp
    · obtain ⟨g, gs, hg⟩ :=
        List.exists_cons_of_ne_nil (getLinesGo_ne_nil measure maxWidth w rest)
      rw [hg, intercalate_cons_cons, ← hg, ih, intercalate_cons_cons]

/-- Every line emitted by the greedy loop is either strictly narrower than
`maxWidth` or is one of the elements of the word pool (invariant: the seed
line satisfies the same disjunction, and all pending words belong to the
pool). -/
lemma getLinesGo_width (measure : List Char → ℚ) (maxWidth : ℚ)
    (pool : List (List Char)) (cur : List Char) (ws : List (List Char))
    (hcur : measure cur < maxWidth ∨ cur ∈ pool)
    (hws : ∀ w ∈ ws, w ∈ pool) :
    ∀ l ∈ getLinesGo measure maxWidth cur ws,
      measure l < maxWidth ∨ l ∈ pool := by
  induction ws generalizing cur with
  | nil =>
    intro l hl
    simp only [getLinesGo, List.mem_singleton] at hl
    subst hl
    exact hcur
  | cons w rest ih =>
    intro l hl
    simp only [getLinesGo] at hl
    split at hl
    · exact ih _ (Or.inl (by assumption))
        (fun u hu => hws u (List.mem_cons_of_mem _ hu)) l hl
    · rcases List.mem_cons.mp hl with rfl | hl'
      · exact hcur
      · exact ih _ (Or.inr (hws w (List.mem_cons_self _ _)))
          (fun u hu => hws u (List.mem_cons_of_mem _ hu)) l hl'

/-- A chunk produced by `splitOn` never contains the separator. -/
lemma not_mem_of_mem_splitOn {x : α} [DecidableEq α] {xs : List α}
    {l : List α} (hl : l ∈ xs.splitOn x) : x ∉ l := by
  induction xs generalizing l with
  | nil =>
    simp only [List.splitOn_nil, List.mem_singleton] at hl
    subst hl
    simp
  | cons a as ih =>
    simp only [List.splitOn, List.splitOnP_cons] at hl ih
    by_cases ha : a = x
    · rw [if_pos (by simp [ha])] at hl
      rcases List.mem_cons.mp hl with rfl | hl'
      · simp
      · exact ih hl'
    · rw [if_neg (by simp [ha])] at hl
      obtain ⟨h, t, hht⟩ :=
        List.exists_cons_of_ne_nil (List.splitOnP_ne_nil (· == x) as)
      rw [hht, List.modifyHead_cons] at hl
      rcases List.mem_cons.mp hl with rfl | hl'
      · intro hmem
        rcases List.mem_cons.mp hmem with rfl | hmem'
        · exact ha rfl
        · exact ih (hht ▸ List.mem_cons_self _ _) hmem'
      · exact ih (hht ▸ List.mem_cons_of_mem _ hl')

/-- Claim C4: for every input string, every width bound `W` and every
width-measure function, each line produced by the shared word-wrap
primitive `getLines` either has measured width at most `W` or is a single
unsplittable word (an element of the space-split word list, containing no
space) held on its own line; and joining the produced lines with single
spaces reconstructs exactly the original string. -/
theorem c4_getLines_wrap (measure : List Char → ℚ) (text : List Char) (W : ℚ) :
    (∀ l ∈ getLines measure text W,
        measure l ≤ W ∨ (l ∈ text.splitOn spc ∧ spc ∉ l)) ∧
    [spc].intercalate (getLines measure text W) = text := by
  constructor
  · intro l hl
    unfold getLines at hl
    rcases hsplit : text.splitOn spc with - | ⟨w, ws⟩
    · exact absurd hsplit (List.splitOnP_ne_nil _ _)
    · rw [hsplit] at hl
      have := getLinesGo_width measure W (text.splitOn spc) w ws
        (Or.inr (by rw [hsplit]; exact List.mem_cons_self _ _))
        (fun u hu => by rw [hsplit]; exact List.mem_cons_of_mem _ hu) l hl
      rcases this with h | h
      · exact Or.inl h.le
      · have hspace := not_mem_of_mem_splitOn h
        rw [hsplit] at h
        exact Or.inr ⟨h, hspace⟩
  · unfold getLines
    rcases hsplit : text.splitOn spc with - | ⟨w, ws⟩
    · exact absurd hsplit (List.splitOnP_ne_nil _ _)
    · rw [intercalate_getLinesGo, ← hsplit, List.intercalate_splitOn]

/-! Data model (src/unnamed/part_001: types.ts). -/

/-- The four visual themes (`enum Theme`). -/
inductive Theme
  | COSMIC
  | NEON
  | LUXE
  | GLASS
deriving DecidableEq, Repr

/-- The five spatial layouts (`enum Layout`). -/
inductive Layout
  | STACKED
  | SPLIT
  | DIAGONAL
  | MAGAZINE
  | LOWER_THIRD
deriving DecidableEq, Repr

/-- `TableData` (types.ts): table strings are modelled as `List Char`. -/
structure TableData where
  title : Option (List Char) := none
  columns : List (List Char)
  data : List (List (List Char))
  sources : List (List Char) := []
  summary : Option (List Char) := none

/-- `AnimationConfig` (types.ts); only the fields the rendering core
reads.  `durationPerItem` is in seconds. -/
structure AnimationConfig where
  theme : Theme
  layout : Layout
  durationPerItem : ℚ
  showProgressBar : Bool := true
  backgroundImage : Option (List Char) := none

/-! Timeline scheduler (src/utils/videoRenderer.ts lines 173-214 and
src/components/TablePreview.tsx lines 106-128). -/

/-- `numAttributes = Math.max(1, numCols - 1)`
(videoRenderer.ts line 174). -/
def numAttributes (data : TableData) : ℕ :=
  max 1 (data.columns.length - 1)

/-- `totalItems = data.data.length * numAttributes`
(videoRenderer.ts line 175); this is the step count `totalSteps`. -/
def totalItems (data : TableData) : ℕ :=
  data.data.length * numAttributes data

/-- Milliseconds per step: `durationPerItem = config.durationPerItem * 1000`
(videoRenderer.ts line 176). -/
def durationMs (config : AnimationConfig) : ℚ :=
  config.durationPerItem * 1000

/-- `totalDuration = totalItems * durationPerItem`
(videoRenderer.ts line 177). -/
def totalDuration (data : TableData) (config : AnimationConfig) : ℚ :=
  totalItems data * durationMs config

/-- The unclamped step index `Math.floor(elapsed / durationPerItem)`
(videoRenderer.ts line 201). -/
def rawStepIndex (elapsed d : ℚ) : ℤ :=
  ⌊elapsed / d⌋

/-- The displayed step index after the end-of-sequence clamp
`if (currentStepIndex >= totalSteps) currentStepIndex = totalSteps - 1`
(videoRenderer.ts line 208). -/
def clampedStepIndex (elapsed d : ℚ) (totalSteps : ℤ) : ℤ :=
  if totalSteps ≤ rawStepIndex elapsed d then totalSteps - 1
  else rawStepIndex elapsed d

/-- Claim C1: with `totalSteps = rows * max(1, cols - 1) > 0` and
`durationPerItem > 0`, the step index computed by the export render loop
equals `floor(elapsed / (durationPerItem * 1000))` clamped to
`[0, totalSteps - 1]` for every `elapsed ≥ 0`, and it is non-decreasing
in `elapsed`. -/
theorem c1_step_index (data : TableData) (config : AnimationConfig)
    (hT : 0 < totalItems data) (hd : 0 < config.durationPerItem) :
    (∀ elapsed : ℚ, 0 ≤ elapsed →
      clampedStepIndex elapsed (durationMs config) (totalItems data) =
        min (max (⌊elapsed / durationMs config⌋) 0) ((totalItems data : ℤ) - 1)) ∧
    (∀ e₁ e₂ : ℚ, e₁ ≤ e₂ →
      clampedStepIndex e₁ (durationMs config) (totalItems data) ≤
        clampedStepIndex e₂ (durationMs config) (totalItems data)) := by
  have hdms : 0 < durationMs config := by
    unfold durationMs
    positivity
  constructor
  · intro elapsed he
    have hraw : (0 : ℤ) ≤ ⌊elapsed / durationMs config⌋ :=
      Int.floor_nonneg.mpr (by positivity)
    unfold clampedStepIndex rawStepIndex
    rw [max_eq_left hraw]
    split
    · rename_i hge
      rw [min_eq_right (by omega)]
    · rename_i hlt
      rw [min_eq_left (by omega)]
  · intro e₁ e₂ hle
    have hmono : rawStepIndex e₁ (durationMs config) ≤
        rawStepIndex e₂ (durationMs config) := by
      unfold rawStepIndex
      exact Int.floor_le_floor (div_le_div_of_nonneg_right hle hdms.le)
    unfold clampedStepIndex
    split <;> split <;> omega

/-- Witness for C1 at a concrete table (2 rows × 2 columns,
2 s per item, elapsed 3000 ms). -/
theorem c1_step_index_witness :
    (∀ elapsed : ℚ, 0 ≤ elapsed →
      clampedStepIndex elapsed
          (durationMs ⟨Theme.COSMIC, Layout.STACKED, 2, true, none⟩)
          (totalItems ⟨none, [[], []], [[[], []], [[], []]], [], none⟩) =
        min (max (⌊elapsed / durationMs
            ⟨Theme.COSMIC, Layout.STACKED, 2, true, none⟩⌋) 0)
          ((totalItems ⟨none, [[], []], [[[], []], [[], []]], [], none⟩ : ℤ) - 1)) ∧
    (∀ e₁ e₂ : ℚ, e₁ ≤ e₂ →
      clampedStepIndex e₁
          (durationMs ⟨Theme.COSMIC, Layout.STACKED, 2, true, none⟩)
          (totalItems ⟨none, [[], []], [[[], []], [[], []]], [], none⟩) ≤
        clampedStepIndex e₂
          (durationMs ⟨Theme.COSMIC, Layout.STACKED, 2, true, none⟩)
          (totalItems ⟨none, [[], []], [[[], []], [[], []]], [], none⟩)) :=
  c1_step_index ⟨none, [[], []], [[[], []], [[], []]], [], none⟩
    ⟨Theme.COSMIC, Layout.STACKED, 2, true, none⟩ (by decide) (by norm_num)

/-- The export loop's transition trigger condition
`currentStepIndex > lastStepIndex && currentStepIndex < totalSteps
&& lastStepIndex !== -1` (videoRenderer.ts line 203). -/
def transitionFires (totalSteps lastStepIndex cur : ℤ) : Bool :=
  decide (lastStepIndex < cur) && decide (cur < totalSteps) &&
    decide (lastStepIndex ≠ -1)

/-- Number of transition stingers raised while folding the export loop's
step sequence: on each tick the trigger condition is evaluated against
`lastStepIndex`, which is then overwritten by the current index
(videoRenderer.ts lines 203-206). -/
def runTransitions (totalSteps : ℤ) : ℤ → List ℤ → ℕ
  | _, [] => 0
  | lastStepIndex, cur :: rest =>
    (if transitionFires totalSteps lastStepIndex cur then 1 else 0) +
      runTransitions totalSteps cur rest

/-- Total number of transition events over a playback whose ticks saw the
given elapsed times; `lastStepIndex` starts at `-1`
(videoRenderer.ts line 184). -/
def exportTransitionCount (data : TableData) (config : AnimationConfig)
    (ticks : List ℚ) : ℕ :=
  runTransitions (totalItems data) (-1)
    (ticks.map (fun e => rawStepIndex e (durationMs config)))

lemma chain_le_mem {a b : ℤ} {l : List ℤ} (h : List.Chain (· ≤ ·) a l)
    (hb : b ∈ l) : a ≤ b := by
  induction l generalizing a with
  | nil => cases hb
  | cons c cs ih =>
    rcases List.chain_cons.mp h with ⟨hac, hcs⟩
    rcases List.mem_cons.mp hb with rfl | hb'
    · exact hac
    · exact hac.trans (ih hcs hb')

/-- Core counting lemma: over a non-decreasing step-index sequence that
contains every index strictly between `last` and `T`, with
`0 ≤ last`, the trigger fires once per distinct index below `T`. -/
lemma runTransitions_count (T : ℤ) (last : ℤ) (ss : List ℤ)
    (hchain : List.Chain (· ≤ ·) last ss)
    (hcover : ∀ v : ℤ, last < v → v < T → v ∈ ss)
    (hlast : 0 ≤ last) :
    runTransitions T last ss = (T - 1 - last).toNat := by
  induction ss generalizing last with
  | nil =>
    have hTle : T ≤ last + 1 := by
      by_contra hlt
      push_neg at hlt
      exact absurd (hcover (last + 1) (by omega) (by omega)) (by simp)
    simp only [runTransitions]
    omega
  | cons s rest ih =>
    rcases List.chain_cons.mp hchain with ⟨hls, hrest⟩
    by_cases hstrict : last < s
    · by_cases hsT : s < T
      · have hs1 : s = last + 1 := by
          by_contra hne
          have hv : last + 1 ∈ s :: rest := hcover (last + 1) (by omega) (by omega)
          rcases List.mem_cons.mp hv with heq | hv'
          · omega
          · have := chain_le_mem hrest hv'
            omega
        have hfire : transitionFires T last s = true := by
          simp only [transitionFires, Bool.and_eq_true, decide_eq_true_eq]
          refine ⟨⟨hstrict, hsT⟩, by omega⟩
        have hcov' : ∀ v : ℤ, s < v → v < T → v ∈ rest := by
          intro v hv1 hv2
          rcases List.mem_cons.mp (hcover v (by omega) hv2) with rfl | hv'
          · omega
          · exact hv'
        simp only [runTransitions, hfire, if_pos]
        rw [ih s hrest hcov' (by omega)]
        omega
      · have hfire : transitionFires T last s = false := by
          simp only [transitionFires, Bool.and_eq_true, decide_eq_true_eq]
          simp only [Bool.and_eq_false_iff, decide_eq_false_iff_not]
          left; right; omega
        have hTle : T ≤ last + 1 := by
          by_contra hlt
          push_neg at hlt
          have hv : last + 1 ∈ s :: rest := hcover (last + 1) (by omega) (by omega)
          rcases List.mem_cons.mp hv with heq | hv'
          · omega
          · have := chain_le_mem hrest hv'
            omega
        have hcov' : ∀ v : ℤ, s < v → v < T → v ∈ rest := by
          intro v hv1 hv2
          omega
        simp only [runTransitions, hfire, Bool.false_eq_true, if_false]
        rw [ih s hrest hcov' (by omega)]
        omega
    · have hseq : s = last := le_antisymm (by omega) hls
      subst hseq
      have hfire : transitionFires T s s = false := by
        simp only [transitionFires, Bool.and_eq_false_iff, decide_eq_false_iff_not]
        left; left; omega
      have hcov' : ∀ v : ℤ, s < v → v < T → v ∈ rest := by
        intro v hv1 hv2
        rcases List.mem_cons.mp (hcover v hv1 hv2) with rfl | hv'
        · omega
        · exact hv'
      simp only [runTransitions, hfire, Bool.false_eq_true, if_false]
      simpa using ih s hrest hcov' hlast

/-- Claim C2: during an uninterrupted playback whose first tick is at
`elapsed = 0`, whose tick times are non-decreasing and non-negative, and
which sees at least one tick inside every step interval, the transition
stinger fires exactly `totalSteps - 1` times; it never fires on the very
first tick. -/
theorem c2_transition_count (data : TableData) (config : AnimationConfig)
    (rest : List ℚ)
    (hT : 0 < totalItems data) (hd : 0 < config.durationPerItem)
    (hchain : List.Chain (· ≤ ·) 0 rest)
    (hcover : ∀ s : ℤ, 0 ≤ s → s < (totalItems data : ℤ) →
      ∃ e ∈ (0 : ℚ) :: rest, rawStepIndex e (durationMs config) = s) :
    exportTransitionCount data config ((0 : ℚ) :: rest) = totalItems data - 1 ∧
    (∀ s : ℤ, transitionFires (totalItems data) (-1) s = false) := by
  have hdms : 0 < durationMs config := by
    unfold durationMs
    positivity
  have hfirstfire : ∀ s : ℤ, transitionFires (totalItems data) (-1) s = false := by
    intro s
    simp [transitionFires]
  refine ⟨?_, hfirstfire⟩
  have hzero : rawStepIndex 0 (durationMs config) = 0 := by
    simp [rawStepIndex]
  unfold exportTransitionCount
  simp only [List.map_cons, hzero, runTransitions, hfirstfire 0,
    Bool.false_eq_true, if_false, zero_add]
  have hchain' : List.Chain (· ≤ ·) (0 : ℤ)
      (rest.map (fun e => rawStepIndex e (durationMs config))) := by
    have hmono : ∀ e₁ e₂ : ℚ, e₁ ≤ e₂ →
        rawStepIndex e₁ (durationMs config) ≤ rawStepIndex e₂ (durationMs config) := by
      intro e₁ e₂ hle
      exact Int.floor_le_floor (div_le_div_of_nonneg_right hle hdms.le)
    have := List.chain_map_of_chain (R := fun a b : ℚ => a ≤ b)
      (fun e => rawStepIndex e (durationMs config)) hmono hchain
    simpa [hzero] using this
  have hcov : ∀ v : ℤ, 0 < v → v < (totalItems data : ℤ) →
      v ∈ rest.map (fun e => rawStepIndex e (durationMs config)) := by
    intro v hv1 hv2
    obtain ⟨e, he, hse⟩ := hcover v (by omega) hv2
    rcases List.mem_cons.mp he with rfl | he'
    · rw [hzero] at hse
      omega
    · exact List.mem_map.mpr ⟨e, he', hse⟩
  rw [runTransitions_count (totalItems data) 0 _ hchain' hcov le_rfl]
  omega

/-- Witness for C2: two rows × two columns, 1 s per item, ticks at
0, 1000 and 2500 ms; exactly one transition fires. -/
theorem c2_transition_count_witness :
    exportTransitionCount ⟨none, [[], []], [[[], []], [[], []]], [], none⟩
        ⟨Theme.COSMIC, Layout.STACKED, 1, true, none⟩ [0, 1000, 2500] =
      totalItems ⟨none, [[], []], [[[], []], [[], []]], [], none⟩ - 1 ∧
    (∀ s : ℤ, transitionFires
      (totalItems ⟨none, [[], []], [[[], []], [[], []]], [], none⟩) (-1) s = false) := by
  have h := c2_transition_count ⟨none, [[], []], [[[], []], [[], []]], [], none⟩
    ⟨Theme.COSMIC, Layout.STACKED, 1, true, none⟩ [1000, 2500]
    (by decide) (by norm_num)
    (by norm_num)
    (by
      intro s hs0 hsT
      have hT2 : (totalItems ⟨none, [[], []], [[[], []], [[], []]], [], none⟩ : ℤ) = 2 := by
        decide
      rw [hT2] at hsT
      interval_cases s
      · exact ⟨0, by norm_num, by simp [rawStepIndex, durationMs]⟩
      · refine ⟨1000, by norm_num, ?_⟩
        show (⌊(1000 : ℚ) / (1 * 1000)⌋ : ℤ) = 1
        norm_num)
  exact h

/-! Frame composition (src/utils/videoRenderer.ts lines 210-362). -/

/-- JS array indexing `arr[i]` with a possibly negative or out-of-range
index, which yields `undefined`, modelled as `none`. -/
def jsIndex (l : List α) (i : ℤ) : Option α :=
  if 0 ≤ i then l[i.toNat]? else none

/-- `colIdx = numCols > 1 ? attrIdx + 1 : 0` (videoRenderer.ts line 214). -/
def colIdxOf (numCols : ℕ) (attrIdx : ℤ) : ℤ :=
  if 1 < numCols then attrIdx + 1 else 0

/-- The four possible backgrounds of a composed frame. -/
inductive BackgroundRender
  | bitmap
  | cosmicGradient
  | neonGrid
  | flatColor
deriving DecidableEq, Repr

/-- Background painted by `drawFrame` (videoRenderer.ts lines 225-266):
the flat theme colour is always painted first; a loaded bitmap is then
drawn on top (with slow zoom and a dark overlay); with no bitmap, COSMIC
adds a linear gradient wash, NEON adds grid lines, and the remaining
themes keep the flat theme colour. -/
def backgroundRender (bgImage : Option Unit) (theme : Theme) : BackgroundRender :=
  match bgImage with
  | some _ => BackgroundRender.bitmap
  | none =>
    match theme with
    | Theme.COSMIC => BackgroundRender.cosmicGradient
    | Theme.NEON => BackgroundRender.neonGrid
    | _ => BackgroundRender.flatColor

/-- The step-dependent content of one composed frame. -/
structure FrameDesc where
  background : BackgroundRender
  titleShown : Bool
  subjectLabel : List Char
  subject : List Char
  attrBlock : Option (List Char × List (List Char))

/-- Content drawn by `drawFrame` for a given clamped step index
(videoRenderer.ts lines 212-362): row, attribute and column index are
derived from the step; the attribute block (header text plus wrapped
value lines, wrap width 450 for the SPLIT layout and 900 otherwise) is
drawn only when `numCols > 1`. -/
def composeFrame (measure : List Char → ℚ) (data : TableData)
    (config : AnimationConfig) (bgImage : Option Unit)
    (currentStepIndex : ℤ) : FrameDesc :=
  let numCols := data.columns.length
  let rowIdx := Int.fdiv currentStepIndex (numAttributes data)
  let attrIdx := Int.tmod currentStepIndex (numAttributes data)
  let colIdx := colIdxOf numCols attrIdx
  let currentRow := (jsIndex data.data rowIdx).getD []
  let subject := (jsIndex currentRow 0).getD []
  let header := (jsIndex data.columns colIdx).getD []
  let value := (jsIndex currentRow colIdx).getD []
  { background := backgroundRender bgImage config.theme
    titleShown := decide (data.title.getD [] ≠ [])
    subjectLabel := (jsIndex data.columns 0).getD []
    subject := subject
    attrBlock :=
      if 1 < numCols then
        some (header,
          getLines measure value
            (if config.layout = Layout.SPLIT then 450 else 900))
      else none }

/-- Background-image loading in `renderVideo` (videoRenderer.ts lines
119-126): a failed `loadImage` is caught and leaves `bgImage` null; the
failure never escapes the try/catch. -/
def resolveBackgroundImage (loadResult : Except (List Char) Unit) : Option Unit :=
  match loadResult with
  | Except.ok img => some img
  | Except.error _ => none

/-- Per-frame rendering given the background-load outcome: always
produces a frame; a load failure never propagates as an error. -/
def renderFrameFromLoad (measure : List Char → ℚ) (data : TableData)
    (config : AnimationConfig) (loadResult : Except (List Char) Unit)
    (step : ℤ) : Except (List Char) FrameDesc :=
  Except.ok (composeFrame measure data config (resolveBackgroundImage loadResult) step)

/-- Claim C8: if loading the configured background image fails, the
failure does not propagate (every frame still renders, as an `ok`
result), and the frame uses the theme's procedural fallback: a gradient
for COSMIC, grid lines for NEON, the flat theme colour otherwise. -/
theorem c8_background_fallback (measure : List Char → ℚ) (data : TableData)
    (config : AnimationConfig) (err : List Char) (step : ℤ) :
    renderFrameFromLoad measure data config (Except.error err) step =
      Except.ok (composeFrame measure data config none step) ∧
    (config.theme = Theme.COSMIC →
      (composeFrame measure data config none step).background =
        BackgroundRender.cosmicGradient) ∧
    (config.theme = Theme.NEON →
      (composeFrame measure data config none step).background =
        BackgroundRender.neonGrid) ∧
    (config.theme ≠ Theme.COSMIC → config.theme ≠ Theme.NEON →
      (composeFrame measure data config none step).background =
        BackgroundRender.flatColor) := by
  refine ⟨rfl, ?_, ?_, ?_⟩
  · intro h
    simp [composeFrame, backgroundRender, h]
  · intro h
    simp [composeFrame, backgroundRender, h]
  · intro h1 h2
    cases htheme : config.theme <;>
      simp [composeFrame, backgroundRender, htheme] <;>
      simp [htheme] at h1 h2

/-- Witness for C8 at a concrete failing load. -/
theorem c8_background_fallback_witness :
    renderFrameFromLoad (fun _ => 0) ⟨none, [[]], [], [], none⟩
        ⟨Theme.LUXE, Layout.STACKED, 2, true, none⟩ (Except.error []) 0 =
      Except.ok (composeFrame (fun _ => 0) ⟨none, [[]], [], [], none⟩
        ⟨Theme.LUXE, Layout.STACKED, 2, true, none⟩ none 0) ∧
    (composeFrame (fun _ => 0) ⟨none, [[]], [], [], none⟩
        ⟨Theme.LUXE, Layout.STACKED, 2, true, none⟩ none 0).background =
      BackgroundRender.flatColor := by
  have h := c8_background_fallback (fun _ => 0) ⟨none, [[]], [], [], none⟩
    ⟨Theme.LUXE, Layout.STACKED, 2, true, none⟩ [] 0
  exact ⟨h.1, h.2.2.2 (by simp) (by simp)⟩

/-- Claim C9: a table with a single column has `numAttributes = 1`, one
step per data row (`totalSteps = data.length`), column index `0` at every
step, and the attribute block is never rendered in any frame. -/
theorem c9_single_column (measure : List Char → ℚ) (data : TableData)
    (config : AnimationConfig) (bgImage : Option Unit) (c : List Char)
    (hcols : data.columns = [c]) :
    numAttributes data = 1 ∧
    totalItems data = data.data.length ∧
    (∀ attrIdx : ℤ, colIdxOf data.columns.length attrIdx = 0) ∧
    (∀ step : ℤ, (composeFrame measure data config bgImage step).attrBlock = none) := by
  have hlen : data.columns.length = 1 := by rw [hcols]; rfl
  have hattr : numAttributes data = 1 := by
    unfold numAttributes
    rw [hlen]
    rfl
  refine ⟨hattr, ?_, ?_, ?_⟩
  · unfold totalItems
    rw [hattr, Nat.mul_one]
  · intro attrIdx
    unfold colIdxOf
    rw [hlen]
    simp
  · intro step
    simp only [composeFrame, hlen]
    simp

/-- Witness for C9 at a concrete single-column table. -/
theorem c9_single_column_witness :
    numAttributes ⟨none, [[]], [[[]], [[]]], [], none⟩ = 1 ∧
    totalItems ⟨none, [[]], [[[]], [[]]], [], none⟩ =
      (⟨none, [[]], [[[]], [[]]], [], none⟩ : TableData).data.length ∧
    (∀ attrIdx : ℤ,
      colIdxOf (⟨none, [[]], [[[]], [[]]], [], none⟩ : TableData).columns.length attrIdx = 0) ∧
    (∀ step : ℤ, (composeFrame (fun _ => 0) ⟨none, [[]], [[[]], [[]]], [], none⟩
        ⟨Theme.NEON, Layout.SPLIT, 1, true, none⟩ none step).attrBlock = none) :=
  c9_single_column (fun _ => 0) ⟨none, [[]], [[[]], [[]]], [], none⟩
    ⟨Theme.NEON, Layout.SPLIT, 1, true, none⟩ none [] rfl

/-! Degenerate input and export shutdown (videoRenderer.ts lines 160-210,
src/components/TablePreview.tsx lines 106-128,
src/unnamed/part_000 lines 184-199). -/

/-- The export loop's progress computation
`Math.min(elapsed / totalDuration, 1)` (videoRenderer.ts line 197), with
the division made explicit: `none` signals that the computation divides
by zero (JS instead evaluates `elapsed / 0` to NaN or Infinity). -/
def exportProgress? (data : TableData) (config : AnimationConfig)
    (elapsed : ℚ) : Option ℚ :=
  if totalDuration data config = 0 then none
  else some (min (elapsed / totalDuration data config) 1)

/-- Observable result of one `nextStep` tick of the live-preview
scheduler (TablePreview.tsx lines 119-141). -/
structure PreviewTick where
  newIndex : ℤ
  transitioned : Bool
  completionScheduled : Bool
  rescheduled : Bool
deriving DecidableEq, Repr

/-- One `nextStep` tick (TablePreview.tsx lines 119-141): the candidate
index is `Math.floor(elapsed / stepDuration)`; if it advanced while still
below `totalSteps` the state index moves and a transition is triggered;
if it reached `totalSteps` the index is held at `totalSteps - 1`,
completion is scheduled once, and no further frame callback is requested;
otherwise the loop re-arms. -/
def nextStepTick (totalSteps currentIndex : ℤ) (elapsed stepDuration : ℚ) :
    PreviewTick :=
  let nextIdx := ⌊elapsed / stepDuration⌋
  let transitioned := decide (currentIndex < nextIdx ∧ nextIdx < totalSteps)
  let idxAfter :=
    if currentIndex < nextIdx ∧ nextIdx < totalSteps then nextIdx else currentIndex
  if totalSteps ≤ nextIdx then
    { newIndex := totalSteps - 1
      transitioned := transitioned
      completionScheduled := true
      rescheduled := false }
  else
    { newIndex := idxAfter
      transitioned := transitioned
      completionScheduled := false
      rescheduled := true }

/-- The `progress` field of the preview's `activeInfo`
(src/unnamed/part_000 lines 184-199): `null` for an empty dataset (so its
division by `totalSteps` is never evaluated), otherwise
`(safeStep + 1) / totalSteps`. -/
def previewProgress? (data : TableData) (currentStep : ℤ) : Option ℚ :=
  if data.data.length = 0 then none
  else
    some ((min currentStep ((totalItems data : ℤ) - 1) + 1) / (totalItems data : ℚ))

lemma data_len_zero_of_totalItems_zero {data : TableData}
    (hT : totalItems data = 0) : data.data.length = 0 := by
  unfold totalItems numAttributes at hT
  rcases Nat.mul_eq_zero.mp hT with h | h
  · exact h
  · omega

/-- Counterexample to claim C5 as stated: on the empty dataset the export
path's progress computation does divide by zero — `totalDuration` is `0`
and the guarded division yields no value at the very first frame. -/
theorem c5_empty_counterexample :
    totalItems ⟨none, [[]], [], [], none⟩ = 0 ∧
    totalDuration ⟨none, [[]], [], [], none⟩
      ⟨Theme.COSMIC, Layout.STACKED, 2, true, none⟩ = 0 ∧
    exportProgress? ⟨none, [[]], [], [], none⟩
      ⟨Theme.COSMIC, Layout.STACKED, 2, true, none⟩ 0 = none := by
  refine ⟨rfl, ?_, ?_⟩
  · show (0 : ℚ) * (2 * 1000) = 0
    norm_num
  · unfold exportProgress?
    rw [if_pos]
    show (0 : ℚ) * (2 * 1000) = 0
    norm_num

lemma rawStepIndex_nonneg {e d : ℚ} (he : 0 ≤ e) (hd : 0 < d) :
    0 ≤ rawStepIndex e d := by
  unfold rawStepIndex
  exact Int.floor_nonneg.mpr (by positivity)

lemma runTransitions_zero_total (last : ℤ) (ss : List ℤ)
    (hss : ∀ s ∈ ss, 0 ≤ s) :
    runTransitions 0 last ss = 0 := by
  induction ss generalizing last with
  | nil => rfl
  | cons s rest ih =>
    have hfire : transitionFires 0 last s = false := by
      simp only [transitionFires, Bool.and_eq_false_iff, decide_eq_false_iff_not]
      left; right
      have := hss s (List.mem_cons_self _ _)
      omega
    simp only [runTransitions, hfire, Bool.false_eq_true, if_false, zero_add]
    exact ih s (fun u hu => hss u (List.mem_cons_of_mem _ hu))

/-- Claim C5 (amended): with `totalSteps = 0` (empty dataset) the
schedulers do nothing harmful — no transition event ever fires, the
clamped export step holds at `-1`, a preview `nextStep` tick immediately
holds index `-1`, schedules completion and never re-arms, and the
preview's progress is `null` (its division is never evaluated); the
export path's progress computation, however, divides by
`totalDuration = 0` on every frame (yielding no value). -/
theorem c5_empty_dataset (data : TableData) (config : AnimationConfig)
    (hT : totalItems data = 0) (hd : 0 < config.durationPerItem) :
    (∀ ticks : List ℚ, (∀ e ∈ ticks, 0 ≤ e) →
      exportTransitionCount data config ticks = 0) ∧
    (∀ e : ℚ, 0 ≤ e →
      clampedStepIndex e (durationMs config) (totalItems data) = -1) ∧
    (∀ e : ℚ, 0 ≤ e →
      nextStepTick (totalItems data) 0 e (durationMs config) =
        ⟨-1, false, true, false⟩) ∧
    (∀ s : ℤ, previewProgress? data s = none) ∧
    (∀ e : ℚ, exportProgress? data config e = none) := by
  have hdms : 0 < durationMs config := by
    unfold durationMs
    positivity
  refine ⟨?_, ?_, ?_, ?_, ?_⟩
  · intro ticks hticks
    unfold exportTransitionCount
    rw [hT]
    refine runTransitions_zero_total _ _ ?_
    intro s hs
    obtain ⟨e, he, rfl⟩ := List.mem_map.mp hs
    exact rawStepIndex_nonneg (hticks e he) hdms
  · intro e he
    unfold clampedStepIndex
    rw [hT]
    have := rawStepIndex_nonneg he hdms
    rw [if_pos (by exact_mod_cast this)]
    rfl
  · intro e he
    have hraw : 0 ≤ ⌊e / durationMs config⌋ :=
      Int.floor_nonneg.mpr (by positivity)
    unfold nextStepTick
    rw [hT]
    simp only [Nat.cast_zero, zero_sub]
    rw [if_pos (by omega)]
    have htrans : ¬((0 : ℤ) < ⌊e / durationMs config⌋ ∧
        ⌊e / durationMs config⌋ < ((0 : ℕ) : ℤ)) := by
      push_neg
      intro h
      omega
    simp [htrans] <;> omega
  · intro s
    unfold previewProgress?
    rw [if_pos (data_len_zero_of_totalItems_zero hT)]
  · intro e
    unfold exportProgress?
    rw [if_pos]
    unfold totalDuration
    rw [hT]
    norm_num

/-- Witness for C5 (amended) at the concrete empty table. -/
theorem c5_empty_dataset_witness :
    (∀ ticks : List ℚ, (∀ e ∈ ticks, 0 ≤ e) →
      exportTransitionCount ⟨none, [[]], [], [], none⟩
        ⟨Theme.COSMIC, Layout.STACKED, 2, true, none⟩ ticks = 0) ∧
    (∀ e : ℚ, 0 ≤ e →
      clampedStepIndex e (durationMs ⟨Theme.COSMIC, Layout.STACKED, 2, true, none⟩)
        (totalItems ⟨none, [[]], [], [], none⟩) = -1) ∧
    (∀ e : ℚ, 0 ≤ e →
      nextStepTick (totalItems ⟨none, [[]], [], [], none⟩) 0 e
        (durationMs ⟨Theme.COSMIC, Layout.STACKED, 2, true, none⟩) =
        ⟨-1, false, true, false⟩) ∧
    (∀ s : ℤ, previewProgress? ⟨none, [[]], [], [], none⟩ s = none) ∧
    (∀ e : ℚ, exportProgress? ⟨none, [[]], [], [], none⟩
        ⟨Theme.COSMIC, Layout.STACKED, 2, true, none⟩ e = none) :=
  c5_empty_dataset ⟨none, [[]], [], [], none⟩
    ⟨Theme.COSMIC, Layout.STACKED, 2, true, none⟩ rfl (by norm_num)

/-! Capture sink shutdown (videoRenderer.ts lines 160-198, 422-425). -/

/-- The fixed end-of-sequence buffer of the export path
(videoRenderer.ts line 180). -/
def endBuffer : ℚ := 3000

/-- `totalRunTime = totalDuration + endBuffer` (videoRenderer.ts
line 181). -/
def totalRunTime (data : TableData) (config : AnimationConfig) : ℚ :=
  totalDuration data config + endBuffer

/-- Observable state of one export session: whether the recorder was
stopped, whether the audio engine was torn down, how many times the
export promise was resolved, and the frames/progress reports produced. -/
structure ExportState where
  stopped : Bool
  audioStopped : Bool
  resolveCount : ℕ
  framesDrawn : ℕ
  progressReports : List (Option ℚ)
deriving DecidableEq, Repr

/-- State before the first `drawFrame` callback. -/
def initExportState : ExportState := ⟨false, false, 0, 0, []⟩

/-- One `drawFrame` callback of the export loop (videoRenderer.ts lines
188-198): after the recorder has been stopped no further callback is
scheduled, so a stopped state absorbs; when `elapsed > totalRunTime` the
recorder is stopped before anything is drawn or reported, which fires
`recorder.onstop` (lines 165-169) — the audio engine is stopped and the
promise is resolved with the final blob; otherwise the frame is drawn and
its progress is reported. -/
def drawFrameTick (data : TableData) (config : AnimationConfig)
    (st : ExportState) (elapsed : ℚ) : ExportState :=
  if st.stopped then st
  else if totalRunTime data config < elapsed then
    { st with stopped := true, audioStopped := true,
              resolveCount := st.resolveCount + 1 }
  else
    { st with framesDrawn := st.framesDrawn + 1,
              progressReports :=
                st.progressReports ++ [exportProgress? data config elapsed] }

/-- The export session run over a sequence of callback times. -/
def runExport (data : TableData) (config : AnimationConfig)
    (ticks : List ℚ) : ExportState :=
  ticks.foldl (drawFrameTick data config) initExportState

lemma drawFrameTick_stopped (data : TableData) (config : AnimationConfig)
    {st : ExportState} (h : st.stopped = true) (e : ℚ) :
    drawFrameTick data config st e = st := by
  unfold drawFrameTick
  rw [if_pos h]

lemma foldl_drawFrameTick_stopped (data : TableData) (config : AnimationConfig)
    {st : ExportState} (h : st.stopped = true) (l : List ℚ) :
    l.foldl (drawFrameTick data config) st = st := by
  induction l with
  | nil => rfl
  | cons e rest ih =>
    rw [List.foldl_cons, drawFrameTick_stopped data config h, ih]

lemma foldl_drawFrameTick_resolveCount (data : TableData)
    (config : AnimationConfig) (l : List ℚ) :
    ∀ st : ExportState,
      st.resolveCount = (if st.stopped then 1 else 0) →
      (l.foldl (drawFrameTick data config) st).resolveCount =
        (if (l.foldl (drawFrameTick data config) st).stopped then 1 else 0) := by
  induction l with
  | nil => intro st h; exact h
  | cons e rest ih =>
    intro st h
    rw [List.foldl_cons]
    refine ih _ ?_
    unfold drawFrameTick
    by_cases hst : st.stopped
    · rw [if_pos hst]
      exact h
    · rw [if_neg hst]
      rw [if_neg hst] at h
      split
      · simp [h]
      · simpa [hst] using h

lemma foldl_drawFrameTick_stops (data : TableData) (config : AnimationConfig)
    (l : List ℚ) :
    ∀ st : ExportState,
      (∃ t ∈ l, totalRunTime data config < t) →
      (l.foldl (drawFrameTick data config) st).stopped = true := by
  induction l with
  | nil =>
    intro st h
    obtain ⟨t, ht, -⟩ := h
    cases ht
  | cons e rest ih =>
    intro st h
    rw [List.foldl_cons]
    obtain ⟨t, ht, htgt⟩ := h
    rcases List.mem_cons.mp ht with rfl | ht'
    · by_cases hst : st.stopped
      · rw [drawFrameTick_stopped data config hst,
          foldl_drawFrameTick_stopped data config hst]
        exact hst
      · have : (drawFrameTick data config st t).stopped = true := by
          unfold drawFrameTick
          rw [if_neg hst, if_pos htgt]
        rw [foldl_drawFrameTick_stopped data config this]
        exact this
    · exact ih _ ⟨t, ht', htgt⟩

/-- Claim C6: once a callback sees `elapsed > totalDuration + endBuffer`
(`endBuffer = 3000` ms), the recorder is stopped, the audio engine is
torn down and the export promise is resolved exactly once; no further
frame is drawn and no further progress is reported (any later callbacks
leave the session state unchanged); in every run the promise resolves at
most once. -/
theorem c6_export_stop (data : TableData) (config : AnimationConfig)
    (ticks extra : List ℚ)
    (hstop : ∃ t ∈ ticks, totalRunTime data config < t) :
    (runExport data config ticks).stopped = true ∧
    (runExport data config ticks).audioStopped = true ∧
    (runExport data config ticks).resolveCount = 1 ∧
    runExport data config (ticks ++ extra) = runExport data config ticks ∧
    (∀ ts : List ℚ, (runExport data config ts).resolveCount ≤ 1) := by
  have hstopped := foldl_drawFrameTick_stops data config ticks initExportState hstop
  have hcount := foldl_drawFrameTick_resolveCount data config ticks
    initExportState rfl
  have haudio : ∀ l : List ℚ, ∀ st : ExportState,
      (st.audioStopped = true ∨ st.stopped = false) →
      ((l.foldl (drawFrameTick data config) st).stopped = true →
        (l.foldl (drawFrameTick data config) st).audioStopped = true) := by
    intro l
    induction l with
    | nil =>
      intro st h hs
      rcases h with h | h
      · exact h
      · rw [List.foldl_nil] at hs
        rw [hs] at h
        cases h
    | cons e rest ih =>
      intro st h
      rw [List.foldl_cons]
      refine ih _ ?_
      unfold drawFrameTick
      by_cases hst : st.stopped
      · rw [if_pos hst]
        exact h
      · rw [if_neg hst]
        split
        · left; rfl
        · right; simpa using hst
  refine ⟨hstopped, ?_, ?_, ?_, ?_⟩
  · exact haudio ticks initExportState (Or.inr rfl) hstopped
  · unfold runExport at hstopped ⊢
    rw [hcount, hstopped]
    rfl
  · unfold runExport
    rw [List.foldl_append]
    exact foldl_drawFrameTick_stopped data config hstopped extra
  · intro ts
    have h := foldl_drawFrameTick_resolveCount data config ts initExportState rfl
    unfold runExport
    rw [h]
    split <;> omega

/-- Witness for C6: one row, 1 s per item (`totalRunTime = 4000`), ticks
at 0 and 5000 ms, one later spurious tick. -/
theorem c6_export_stop_witness :
    (runExport ⟨none, [[]], [[[]]], [], none⟩
        ⟨Theme.COSMIC, Layout.STACKED, 1, true, none⟩ [0, 5000]).stopped = true ∧
    (runExport ⟨none, [[]], [[[]]], [], none⟩
        ⟨Theme.COSMIC, Layout.STACKED, 1, true, none⟩ [0, 5000]).audioStopped = true ∧
    (runExport ⟨none, [[]], [[[]]], [], none⟩
        ⟨Theme.COSMIC, Layout.STACKED, 1, true, none⟩ [0, 5000]).resolveCount = 1 ∧
    runExport ⟨none, [[]], [[[]]], [], none⟩
        ⟨Theme.COSMIC, Layout.STACKED, 1, true, none⟩ ([0, 5000] ++ [6000]) =
      runExport ⟨none, [[]], [[[]]], [], none⟩
        ⟨Theme.COSMIC, Layout.STACKED, 1, true, none⟩ [0, 5000] ∧
    (∀ ts : List ℚ, (runExport ⟨none, [[]], [[[]]], [], none⟩
        ⟨Theme.COSMIC, Layout.STACKED, 1, true, none⟩ ts).resolveCount ≤ 1) :=
  c6_export_stop ⟨none, [[]], [[[]]], [], none⟩
    ⟨Theme.COSMIC, Layout.STACKED, 1, true, none⟩ [0, 5000] [6000]
    ⟨5000, by norm_num, by
      show totalDuration ⟨none, [[]], [[[]]], [], none⟩
          ⟨Theme.COSMIC, Layout.STACKED, 1, true, none⟩ + endBuffer < 5000
      show (totalItems ⟨none, [[]], [[[]]], [], none⟩ : ℚ) * (1 * 1000) + 3000 < 5000
      norm_num [totalItems, numAttributes]⟩

/-! Audio engine lifecycle (src/unnamed/part_002: audioSynth.ts,
class PresentationAudio). -/

/-- One synthesis node (oscillator, gain, filter or buffer source),
tracked by whether `stop` and `disconnect` have been invoked on it. -/
structure SynthNode where
  stopCalled : Bool
  disconnected : Bool
deriving DecidableEq, Repr

/-- A freshly created, connected node. -/
def freshNode : SynthNode := ⟨false, false⟩

/-- Observable state of one `PresentationAudio` instance: the
`this.nodes` list of live synthesis nodes, the nodes already removed from
that list, the narration source and the narration sources it replaced,
the ambient-scheduler timer, the playing flag and whether the audio
context has been closed. -/
structure AudioState where
  isPlaying : Bool
  timerID : Option ℕ
  nodes : List SynthNode
  retired : List SynthNode
  voiceSource : Option SynthNode
  voiceRetired : List SynthNode
  ctxClosed : Bool
deriving DecidableEq, Repr

/-- State right after the constructor (audioSynth.ts lines 23-45). -/
def newAudioState : AudioState :=
  ⟨false, none, [], [], none, [], false⟩

/-- `start()` (audioSynth.ts lines 47-57): idempotent while playing;
otherwise sets the playing flag and launches the ambient scheduler
(which arms the lookahead timer). -/
def audioStart (st : AudioState) : AudioState :=
  if st.isPlaying then st
  else { st with isPlaying := true, timerID := some 0 }

/-- `playPianoTone` (audioSynth.ts lines 160-186): creates an oscillator,
a gain and a filter and pushes all three onto `this.nodes`. -/
def playPianoTone (st : AudioState) : AudioState :=
  { st with nodes := st.nodes ++ [freshNode, freshNode, freshNode] }

/-- `triggerTransition` (audioSynth.ts lines 188-210): creates an
oscillator and a gain and pushes both onto `this.nodes`. -/
def triggerTransition_ (st : AudioState) : AudioState :=
  { st with nodes := st.nodes ++ [freshNode, freshNode] }

/-- `playSpeech` (audioSynth.ts lines 90-126): a previous narration
source is stopped (`this.voiceSource.stop()`) and dropped — without a
`disconnect()` call — then a fresh buffer source becomes the narration
source. -/
def playSpeech (st : AudioState) : AudioState :=
  match st.voiceSource with
  | some v =>
    { st with voiceRetired := st.voiceRetired ++ [{ v with stopCalled := true }]
              voiceSource := some freshNode }
  | none => { st with voiceSource := some freshNode }

/-- `stop()` (audioSynth.ts lines 59-86): cancels the lookahead timer,
stops and disconnects every node in `this.nodes` and empties the list,
stops, disconnects and clears the narration source, and closes the audio
context unless already closed. -/
def audioStop (st : AudioState) : AudioState :=
  { isPlaying := false
    timerID := none
    nodes := []
    retired := st.retired ++ st.nodes.map (fun n =>
      { n with stopCalled := true, disconnected := true })
    voiceSource := none
    voiceRetired := st.voiceRetired ++ (st.voiceSource.map (fun v =>
      { v with stopCalled := true, disconnected := true })).toList
    ctxClosed := true }

/-- The externally reachable operations on a `PresentationAudio`
instance. -/
inductive AudioOp
  | start
  | piano
  | stinger
  | speech
  | stop
deriving DecidableEq, Repr

/-- Apply one operation. -/
def applyAudioOp (st : AudioState) (op : AudioOp) : AudioState :=
  match op with
  | AudioOp.start => audioStart st
  | AudioOp.piano => playPianoTone st
  | AudioOp.stinger => triggerTransition_ st
  | AudioOp.speech => playSpeech st
  | AudioOp.stop => audioStop st

/-- Run an operation sequence from a fresh instance. -/
def runAudioOps (ops : List AudioOp) : AudioState :=
  ops.foldl applyAudioOp newAudioState

/-- Every node this instance ever created: retired ones, live ones,
replaced narration sources and the current narration source. -/
def createdNodes (st : AudioState) : List SynthNode :=
  st.retired ++ st.nodes ++ st.voiceRetired ++ st.voiceSource.toList

/-- Counterexample to claim C7 as stated: after `playSpeech` is called
twice and then `stop()`, the replaced narration source was stopped but
never disconnected, so not every created node has been stopped *and*
disconnected. -/
theorem c7_stop_counterexample :
    ¬ (∀ n ∈ createdNodes (runAudioOps
        [AudioOp.start, AudioOp.speech, AudioOp.speech, AudioOp.stop]),
        n.stopCalled = true ∧ n.disconnected = true) := by
  decide

/-- Invariant preserved by every operation: nodes in `retired` have been
stopped and disconnected, and nodes in `voiceRetired` have at least been
stopped. -/
def RetiredInv (st : AudioState) : Prop :=
  (∀ n ∈ st.retired, n.stopCalled = true ∧ n.disconnected = true) ∧
  (∀ n ∈ st.voiceRetired, n.stopCalled = true)

lemma retiredInv_apply {st : AudioState} (h : RetiredInv st) (op : AudioOp) :
    RetiredInv (applyAudioOp st op) := by
  obtain ⟨h1, h2⟩ := h
  cases op with
  | start =>
    show RetiredInv (audioStart st)
    unfold audioStart
    split
    · exact ⟨h1, h2⟩
    · exact ⟨h1, h2⟩
  | piano => exact ⟨h1, h2⟩
  | stinger => exact ⟨h1, h2⟩
  | speech =>
    show RetiredInv (playSpeech st)
    unfold playSpeech
    split
    · refine ⟨h1, ?_⟩
      intro n hn
      rcases List.mem_append.mp hn with hn' | hn'
      · exact h2 n hn'
      · rw [List.mem_singleton] at hn'
        subst hn'
        rfl
    · exact ⟨h1, h2⟩
  | stop =>
    show RetiredInv (audioStop st)
    unfold audioStop
    constructor
    · intro n hn
      rcases List.mem_append.mp hn with hn' | hn'
      · exact h1 n hn'
      · obtain ⟨m, -, rfl⟩ := List.mem_map.mp hn'
        exact ⟨rfl, rfl⟩
    · intro n hn
      rcases List.mem_append.mp hn with hn' | hn'
      · exact h2 n hn'
      · rcases hv : st.voiceSource with - | v
        · rw [hv] at hn'
          cases hn'
        · rw [hv] at hn'
          simp only [Option.map_some', Option.toList_some,
            List.mem_singleton] at hn'
          subst hn'
          rfl

lemma retiredInv_run (ops : List AudioOp) : RetiredInv (runAudioOps ops) := by
  have : ∀ st : AudioState, RetiredInv st →
      RetiredInv (ops.foldl applyAudioOp st) := by
    induction ops with
    | nil => intro st h; exact h
    | cons op rest ih =>
      intro st h
      rw [List.foldl_cons]
      exact ih _ (retiredInv_apply h op)
  refine this newAudioState ⟨?_, ?_⟩ <;> intro n hn <;> cases hn

/-- Claim C7 (amended): after `stop()` the live node list is empty, the
ambient-scheduler timer is cancelled, the narration source is stopped,
disconnected and cleared, the audio context is closed, every node ever
placed on the node list has been stopped and disconnected, every
narration source has been stopped, and calling `stop()` a second time is
safe — it returns the state unchanged.  (A narration source replaced by a
later `playSpeech` is stopped but never disconnected.) -/
theorem c7_stop_teardown (ops : List AudioOp) :
    (audioStop (runAudioOps ops)).nodes = [] ∧
    (audioStop (runAudioOps ops)).timerID = none ∧
    (audioStop (runAudioOps ops)).voiceSource = none ∧
    (∀ v, (runAudioOps ops).voiceSource = some v →
      (audioStop (runAudioOps ops)).voiceRetired =
        (runAudioOps ops).voiceRetired ++ [⟨true, true⟩]) ∧
    (audioStop (runAudioOps ops)).isPlaying = false ∧
    (audioStop (runAudioOps ops)).ctxClosed = true ∧
    (∀ n ∈ (audioStop (runAudioOps ops)).retired,
      n.stopCalled = true ∧ n.disconnected = true) ∧
    (∀ n ∈ (audioStop (runAudioOps ops)).voiceRetired, n.stopCalled = true) ∧
    audioStop (audioStop (runAudioOps ops)) = audioStop (runAudioOps ops) := by
  have hinv := retiredInv_apply (retiredInv_run ops) AudioOp.stop
  unfold applyAudioOp at hinv
  refine ⟨rfl, rfl, rfl, ?_, rfl, rfl, hinv.1, hinv.2, ?_⟩
  · intro v hv
    show (runAudioOps ops).voiceRetired ++
        ((runAudioOps ops).voiceSource.map (fun v =>
          { v with stopCalled := true, disconnected := true })).toList =
      (runAudioOps ops).voiceRetired ++ [⟨true, true⟩]
    rw [hv]
    rfl
  · simp [audioStop]

/-- Witness for C7 (amended) at a concrete operation sequence. -/
theorem c7_stop_teardown_witness :
    (audioStop (runAudioOps [AudioOp.start, AudioOp.piano, AudioOp.stinger,
        AudioOp.speech])).nodes = [] ∧
    (audioStop (runAudioOps [AudioOp.start, AudioOp.piano, AudioOp.stinger,
        AudioOp.speech])).timerID = none ∧
    (audioStop (runAudioOps [AudioOp.start, AudioOp.piano, AudioOp.stinger,
        AudioOp.speech])).voiceSource = none ∧
    (∀ v, (runAudioOps [AudioOp.start, AudioOp.piano, AudioOp.stinger,
        AudioOp.speech]).voiceSource = some v →
      (audioStop (runAudioOps [AudioOp.start, AudioOp.piano, AudioOp.stinger,
        AudioOp.speech])).voiceRetired =
        (runAudioOps [AudioOp.start, AudioOp.piano, AudioOp.stinger,
          AudioOp.speech]).voiceRetired ++ [⟨true, true⟩]) ∧
    (audioStop (runAudioOps [AudioOp.start, AudioOp.piano, AudioOp.stinger,
        AudioOp.speech])).isPlaying = false ∧
    (audioStop (runAudioOps [AudioOp.start, AudioOp.piano, AudioOp.stinger,
        AudioOp.speech])).ctxClosed = true ∧
    (∀ n ∈ (audioStop (runAudioOps [AudioOp.start, AudioOp.piano,
        AudioOp.stinger, AudioOp.speech])).retired,
      n.stopCalled = true ∧ n.disconnected = true) ∧
    (∀ n ∈ (audioStop (runAudioOps [AudioOp.start, AudioOp.piano,
        AudioOp.stinger, AudioOp.speech])).voiceRetired, n.stopCalled = true) ∧
    audioStop (audioStop (runAudioOps [AudioOp.start, AudioOp.piano,
        AudioOp.stinger, AudioOp.speech])) =
      audioStop (runAudioOps [AudioOp.start, AudioOp.piano, AudioOp.stinger,
        AudioOp.speech]) :=
  c7_stop_teardown [AudioOp.start, AudioOp.piano, AudioOp.stinger, AudioOp.speech]

/-! Adaptive layout solver for the static image export
(src/unnamed/part_003: renderTableImage, lines 124-201). -/

/-- `col.toUpperCase()`. -/
def jsToUpper (s : List Char) : List Char := s.map Char.toUpper

/-- `Math.floor(size * 1.3)`, the line height for a font size
(part_003 lines 147-148). -/
def lineHeightOf (size : ℕ) : ℕ := size * 13 / 10

/-- Wrapped header-cell lines: each column name upper-cased and wrapped
at the header font (part_003 lines 151-152).  `measure size bold text`
stands for `ctx.measureText(text).width` under the corresponding font. -/
def headerLinesOf (measure : ℕ → Bool → List Char → ℚ) (data : TableData)
    (textWidth : ℚ) (hFSize : ℕ) : List (List (List Char)) :=
  data.columns.map (fun col =>
    getLines (measure hFSize true) (jsToUpper col) textWidth)

/-- `Math.max(...hLines.map(l => l.length))` (part_003 line 153). -/
def maxHeaderLines (measure : ℕ → Bool → List Char → ℚ) (data : TableData)
    (textWidth : ℚ) (hFSize : ℕ) : ℕ :=
  ((headerLinesOf measure data textWidth hFSize).map List.length).foldr max 0

/-- Header row height `maxHLines * hLHeight + rPad`
(part_003 line 154). -/
def headerHeightOf (measure : ℕ → Bool → List Char → ℚ) (data : TableData)
    (textWidth : ℚ) (hFSize : ℕ) (rPad : ℚ) : ℚ :=
  ((maxHeaderLines measure data textWidth hFSize * lineHeightOf hFSize : ℕ) : ℚ)
    + rPad

/-- Wrapped data-cell lines: each cell wrapped at the body font, bold for
the first column (part_003 lines 161-173). -/
def rowLinesOf (measure : ℕ → Bool → List Char → ℚ) (data : TableData)
    (textWidth : ℚ) (fSize : ℕ) : List (List (List (List Char))) :=
  data.data.map (fun row =>
    row.enum.map (fun ic =>
      getLines (measure fSize (decide (ic.1 = 0))) ic.2 textWidth))

/-- Height of one data row:
`Math.max((maxLines * lHeight) + rPad, 80)` with `maxLines` the largest
cell line count, starting from 1 (part_003 lines 163-175). -/
def rowHeightOf (lHeight : ℕ) (rPad : ℚ) (cellLines : List (List (List Char))) : ℚ :=
  max ((((cellLines.map List.length).foldl max 1 * lHeight : ℕ) : ℚ) + rPad) 80

/-- All data-row heights (part_003 lines 158-176). -/
def rowHeightsOf (measure : ℕ → Bool → List Char → ℚ) (data : TableData)
    (textWidth : ℚ) (fSize : ℕ) (rPad : ℚ) : List ℚ :=
  (rowLinesOf measure data textWidth fSize).map (rowHeightOf (lineHeightOf fSize) rPad)

/-- The layout record built by `calculateLayout` (part_003 lines
137-180). -/
structure TableLayout where
  headerHeight : ℚ
  rowHeights : List ℚ
  totalHeight : ℚ
  headerLines : List (List (List Char))
  rowLines : List (List (List (List Char)))

/-- `calculateLayout(fSize, hFSize, rPad)` (part_003 lines 146-180):
header height plus per-row heights; total height is their sum. -/
def calculateLayout (measure : ℕ → Bool → List Char → ℚ) (data : TableData)
    (textWidth : ℚ) (fSize hFSize : ℕ) (rPad : ℚ) : TableLayout :=
  { headerHeight := headerHeightOf measure data textWidth hFSize rPad
    rowHeights := rowHeightsOf measure data textWidth fSize rPad
    totalHeight := headerHeightOf measure data textWidth hFSize rPad +
      (rowHeightsOf measure data textWidth fSize rPad).sum
    headerLines := headerLinesOf measure data textWidth hFSize
    rowLines := rowLinesOf measure data textWidth fSize }

/-- Mutable state of the font-shrink loop: body font size, header font
size, row padding and the `attempts` counter (part_003 lines 131-134,
186). -/
structure SolverState where
  fontSize : ℕ
  headerFontSize : ℕ
  rowPadding : ℚ
  attempts : ℕ
deriving DecidableEq, Repr

/-- Values before the loop: `fontSize = 55`, `headerFontSize = 45`,
`rowPadding = 40`, `attempts = 0` (part_003 lines 131-134, 186). -/
def solverInit : SolverState := ⟨55, 45, 40, 0⟩

/-- One shrink iteration body (part_003 lines 188-192):
`fontSize -= 3; headerFontSize = max(25, headerFontSize - 2);
rowPadding = max(20, rowPadding - 4); attempts++`. -/
def shrinkStep (st : SolverState) : SolverState :=
  { fontSize := st.fontSize - 3
    headerFontSize := max 25 (st.headerFontSize - 2)
    rowPadding := max 20 (st.rowPadding - 4)
    attempts := st.attempts + 1 }

/-- The downscale `while` loop (part_003 lines 187-193), with guard
`totalHeight > availableTableHeight && fontSize > 25 && attempts < 15`;
fuel-bounded recursion (the guard `attempts < 15` exits before fuel 16 is
exhausted). -/
def shrinkLoop (measure : ℕ → Bool → List Char → ℚ) (data : TableData)
    (textWidth avail : ℚ) : ℕ → SolverState → SolverState
  | 0, st => st
  | fuel + 1, st =>
    if avail < (calculateLayout measure data textWidth st.fontSize
          st.headerFontSize st.rowPadding).totalHeight ∧
        25 < st.fontSize ∧ st.attempts < 15 then
      shrinkLoop measure data textWidth avail fuel (shrinkStep st)
    else st

/-- The completed shrink phase. -/
def solveShrink (measure : ℕ → Bool → List Char → ℚ) (data : TableData)
    (textWidth avail : ℚ) : SolverState :=
  shrinkLoop measure data textWidth avail 16 solverInit

/-- The surplus-distribution step (part_003 lines 196-201): if the table
is well under target (`totalHeight < availableTableHeight * 0.85`), add
`min(diff / (rows + 1), 80)` to the row padding, once. -/
def upscalePadding (measure : ℕ → Bool → List Char → ℚ) (data : TableData)
    (textWidth avail : ℚ) (st : SolverState) : ℚ :=
  let tot := (calculateLayout measure data textWidth st.fontSize
    st.headerFontSize st.rowPadding).totalHeight
  if tot < avail * (85 / 100) then
    st.rowPadding + min ((avail - tot) / ((data.data.length : ℚ) + 1)) 80
  else st.rowPadding

/-- The layout finally used for drawing: shrink phase, then the one-time
surplus distribution and recompute (part_003 lines 183-201). -/
def finalLayout (measure : ℕ → Bool → List Char → ℚ) (data : TableData)
    (textWidth avail : ℚ) : TableLayout :=
  let st := solveShrink measure data textWidth avail
  calculateLayout measure data textWidth st.fontSize st.headerFontSize
    (upscalePadding measure data textWidth avail st)

/-- Font size visited at iteration `k` of the shrink schedule. -/
def schedFont (k : ℕ) : ℕ := 55 - 3 * k

/-- Header font size visited at iteration `k`. -/
def schedHeader (k : ℕ) : ℕ := max 25 (45 - 2 * k)

/-- Row padding visited at iteration `k`. -/
def schedPad (k : ℕ) : ℚ := max 20 (40 - 4 * (k : ℚ))

/-- Full solver state at iteration `k` of the shrink schedule. -/
def schedState (k : ℕ) : SolverState :=
  ⟨schedFont k, schedHeader k, schedPad k, k⟩

/-- The table fits the available height at schedule iteration `k`. -/
def schedFits (measure : ℕ → Bool → List Char → ℚ) (data : TableData)
    (textWidth avail : ℚ) (k : ℕ) : Prop :=
  (calculateLayout measure data textWidth (schedFont k) (schedHeader k)
    (schedPad k)).totalHeight ≤ avail

lemma schedStep_eq {k : ℕ} (hk : k < 10) :
    shrinkStep (schedState k) = schedState (k + 1) := by
  interval_cases k <;>
    simp [shrinkStep, schedState, schedFont, schedHeader, schedPad, max_def] <;>
    norm_num

lemma solverInit_eq : solverInit = schedState 0 := by
  simp [solverInit, schedState, schedFont, schedHeader, schedPad, max_def]
  norm_num

lemma shrinkLoop_attempts_le (measure : ℕ → Bool → List Char → ℚ)
    (data : TableData) (textWidth avail : ℚ) (fuel : ℕ) :
    ∀ st : SolverState, st.attempts ≤ 15 →
      (shrinkLoop measure data textWidth avail fuel st).attempts ≤ 15 := by
  induction fuel with
  | zero => intro st h; exact h
  | succ n ih =>
    intro st h
    unfold shrinkLoop
    split
    · rename_i hguard
      exact ih (shrinkStep st) (by
        show st.attempts + 1 ≤ 15
        omega)
    · exact h

lemma shrinkLoop_font_floor (measure : ℕ → Bool → List Char → ℚ)
    (data : TableData) (textWidth avail : ℚ) (fuel : ℕ) :
    ∀ st : SolverState, 25 ≤ st.fontSize → st.fontSize % 3 = 1 →
      25 ≤ st.headerFontSize →
      25 ≤ (shrinkLoop measure data textWidth avail fuel st).fontSize ∧
      25 ≤ (shrinkLoop measure data textWidth avail fuel st).headerFontSize := by
  induction fuel with
  | zero => intro st h1 h2 h3; exact ⟨h1, h3⟩
  | succ n ih =>
    intro st h1 h2 h3
    unfold shrinkLoop
    split
    · rename_i hguard
      refine ih (shrinkStep st) ?_ ?_ ?_
      · show 25 ≤ st.fontSize - 3
        omega
      · show (st.fontSize - 3) % 3 = 1
        omega
      · exact le_max_left _ _
    · exact ⟨h1, h3⟩

lemma shrinkLoop_pad_ge (measure : ℕ → Bool → List Char → ℚ)
    (data : TableData) (textWidth avail : ℚ) (fuel : ℕ) :
    ∀ st : SolverState, 20 ≤ st.rowPadding →
      20 ≤ (shrinkLoop measure data textWidth avail fuel st).rowPadding := by
  induction fuel with
  | zero => intro st h; exact h
  | succ n ih =>
    intro st h
    unfold shrinkLoop
    split
    · exact ih (shrinkStep st) (le_max_left _ _)
    · exact h

lemma shrinkLoop_noFit (measure : ℕ → Bool → List Char → ℚ)
    (data : TableData) (textWidth avail : ℚ) (fuel : ℕ) :
    ∀ k : ℕ, k ≤ 10 → 11 - k ≤ fuel →
      (∀ j, k ≤ j → j ≤ 10 → ¬ schedFits measure data textWidth avail j) →
      shrinkLoop measure data textWidth avail fuel (schedState k) =
        schedState 10 := by
  induction fuel with
  | zero => intro k hk hfuel _; omega
  | succ n ih =>
    intro k hk hfuel hnofit
    unfold shrinkLoop
    by_cases hk10 : k = 10
    · subst hk10
      rw [if_neg]
      intro hguard
      have hfont : 25 < schedFont 10 := hguard.2.1
      revert hfont
      decide
    · have hklt : k < 10 := by omega
      have hguard : avail < (calculateLayout measure data textWidth
          (schedState k).fontSize (schedState k).headerFontSize
          (schedState k).rowPadding).totalHeight ∧
          25 < (schedState k).fontSize ∧ (schedState k).attempts < 15 := by
        refine ⟨not_le.mp (hnofit k le_rfl (by omega)), ?_, ?_⟩
        · show 25 < schedFont k
          unfold schedFont
          omega
        · show k < 15
          omega
      rw [if_pos hguard, schedStep_eq hklt]
      exact ih (k + 1) (by omega) (by omega)
        (fun j hj1 hj2 => hnofit j (by omega) hj2)

lemma shrinkLoop_fit (measure : ℕ → Bool → List Char → ℚ)
    (data : TableData) (textWidth avail : ℚ) (fuel : ℕ) :
    ∀ k : ℕ, k ≤ 10 → 11 - k ≤ fuel →
      (∃ j, k ≤ j ∧ j ≤ 10 ∧ schedFits measure data textWidth avail j) →
      (calculateLayout measure data textWidth
        (shrinkLoop measure data textWidth avail fuel (schedState k)).fontSize
        (shrinkLoop measure data textWidth avail fuel (schedState k)).headerFontSize
        (shrinkLoop measure data textWidth avail fuel (schedState k)).rowPadding).totalHeight
        ≤ avail := by
  induction fuel with
  | zero => intro k hk hfuel _; omega
  | succ n ih =>
    intro k hk hfuel hfit
    unfold shrinkLoop
    by_cases hfitk : schedFits measure data textWidth avail k
    · rw [if_neg (fun hguard => absurd hguard.1 (not_lt.mpr hfitk))]
      exact hfitk
    · obtain ⟨j, hkj, hj10, hjfit⟩ := hfit
      have hne : j ≠ k := fun h => hfitk (h ▸ hjfit)
      have hklt : k < 10 := by omega
      have hguard : avail < (calculateLayout measure data textWidth
          (schedState k).fontSize (schedState k).headerFontSize
          (schedState k).rowPadding).totalHeight ∧
          25 < (schedState k).fontSize ∧ (schedState k).attempts < 15 := by
        refine ⟨not_le.mp hfitk, ?_, ?_⟩
        · show 25 < schedFont k
          unfold schedFont
          omega
        · show k < 15
          omega
      rw [if_pos hguard, schedStep_eq hklt]
      exact ih (k + 1) (by omega) (by omega) ⟨j, by omega, hj10, hjfit⟩

/-- Claim C3: for every table, measure function and available height, the
image-export font-shrink loop performs at most 15 iterations; on exit
both the body font size and the header font size are at least 25;
whenever some schedule point at or above the 25 px floor makes the table
fit the available height, the returned layout satisfies
`totalHeight ≤ availableTableHeight`; otherwise the floor-font state
(`fontSize = 25`, `headerFontSize = 25`, `rowPadding = 20`) is returned
after its bounded number of iterations. -/
theorem c3_shrink_solver (measure : ℕ → Bool → List Char → ℚ)
    (data : TableData) (textWidth avail : ℚ) :
    (solveShrink measure data textWidth avail).attempts ≤ 15 ∧
    25 ≤ (solveShrink measure data textWidth avail).fontSize ∧
    25 ≤ (solveShrink measure data textWidth avail).headerFontSize ∧
    ((∃ k, k ≤ 10 ∧ schedFits measure data textWidth avail k) →
      (calculateLayout measure data textWidth
        (solveShrink measure data textWidth avail).fontSize
        (solveShrink measure data textWidth avail).headerFontSize
        (solveShrink measure data textWidth avail).rowPadding).totalHeight ≤ avail) ∧
    ((∀ k, k ≤ 10 → ¬ schedFits measure data textWidth avail k) →
      solveShrink measure data textWidth avail = ⟨25, 25, 20, 10⟩) := by
  refine ⟨?_, ?_, ?_, ?_, ?_⟩
  · exact shrinkLoop_attempts_le measure data textWidth avail 16 solverInit
      (by norm_num [solverInit])
  · exact (shrinkLoop_font_floor measure data textWidth avail 16 solverInit
      (by norm_num [solverInit]) (by norm_num [solverInit])
      (by norm_num [solverInit])).1
  · exact (shrinkLoop_font_floor measure data textWidth avail 16 solverInit
      (by norm_num [solverInit]) (by norm_num [solverInit])
      (by norm_num [solverInit])).2
  · intro hfit
    obtain ⟨k, hk, hkfit⟩ := hfit
    unfold solveShrink
    rw [solverInit_eq]
    exact shrinkLoop_fit measure data textWidth avail 16 0 (by omega) (by omega)
      ⟨k, by omega, hk, hkfit⟩
  · intro hnofit
    unfold solveShrink
    rw [solverInit_eq]
    rw [shrinkLoop_noFit measure data textWidth avail 16 0 (by omega) (by omega)
      (fun j _ hj => hnofit j hj)]
    simp [schedState, schedFont, schedHeader, schedPad, max_def]
    norm_num

/-- Witness for C3 at a concrete measure (everything measures 0) and a
one-row, one-column table. -/
theorem c3_shrink_solver_witness :
    (solveShrink (fun _ _ _ => 0) ⟨none, [[]], [[[]]], [], none⟩ 100 10000).attempts ≤ 15 ∧
    25 ≤ (solveShrink (fun _ _ _ => 0) ⟨none, [[]], [[[]]], [], none⟩ 100 10000).fontSize ∧
    25 ≤ (solveShrink (fun _ _ _ => 0) ⟨none, [[]], [[[]]], [], none⟩ 100 10000).headerFontSize ∧
    ((∃ k, k ≤ 10 ∧ schedFits (fun _ _ _ => 0) ⟨none, [[]], [[[]]], [], none⟩ 100 10000 k) →
      (calculateLayout (fun _ _ _ => 0) ⟨none, [[]], [[[]]], [], none⟩ 100
        (solveShrink (fun _ _ _ => 0) ⟨none, [[]], [[[]]], [], none⟩ 100 10000).fontSize
        (solveShrink (fun _ _ _ => 0) ⟨none, [[]], [[[]]], [], none⟩ 100 10000).headerFontSize
        (solveShrink (fun _ _ _ => 0) ⟨none, [[]], [[[]]], [], none⟩ 100 10000).rowPadding).totalHeight
        ≤ 10000) ∧
    ((∀ k, k ≤ 10 → ¬ schedFits (fun _ _ _ => 0) ⟨none, [[]], [[[]]], [], none⟩ 100 10000 k) →
      solveShrink (fun _ _ _ => 0) ⟨none, [[]], [[[]]], [], none⟩ 100 10000 = ⟨25, 25, 20, 10⟩) :=
  c3_shrink_solver (fun _ _ _ => 0) ⟨none, [[]], [[[]]], [], none⟩ 100 10000

lemma sum_map_le_of_pointwise {α : Type} (L : List α) (f g : α → ℚ) (δ : ℚ)
    (h : ∀ x ∈ L, f x ≤ g x + δ) :
    (L.map f).sum ≤ (L.map g).sum + L.length * δ := by
  induction L with
  | nil => simp
  | cons a l ih =>
    simp only [List.map_cons, List.sum_cons, List.length_cons]
    have h1 := h a (List.mem_cons_self _ _)
    have h2 := ih (fun x hx => h x (List.mem_cons_of_mem _ hx))
    push_cast
    nlinarith [h1, h2]

lemma rowHeightOf_pad_le (lh : ℕ) (p δ : ℚ) (hδ : 0 ≤ δ)
    (cl : List (List (List Char))) :
    rowHeightOf lh (p + δ) cl ≤ rowHeightOf lh p cl + δ := by
  unfold rowHeightOf
  apply max_le
  · have := le_max_left
      ((((cl.map List.length).foldl max 1 * lh : ℕ) : ℚ) + p) 80
    linarith
  · have := le_max_right
      ((((cl.map List.length).foldl max 1 * lh : ℕ) : ℚ) + p) 80
    linarith

/-- Raising the row padding by `δ ≥ 0` raises the total table height by
at most `(rows + 1) * δ`: the wrapped lines do not depend on the padding,
the header grows by exactly `δ`, and each row grows by at most `δ`. -/
lemma calculateLayout_pad_shift (measure : ℕ → Bool → List Char → ℚ)
    (data : TableData) (textWidth : ℚ) (f h : ℕ) (p δ : ℚ) (hδ : 0 ≤ δ) :
    (calculateLayout measure data textWidth f h (p + δ)).totalHeight ≤
      (calculateLayout measure data textWidth f h p).totalHeight +
        ((data.data.length : ℚ) + 1) * δ := by
  show headerHeightOf measure data textWidth h (p + δ) +
      (rowHeightsOf measure data textWidth f (p + δ)).sum ≤
    headerHeightOf measure data textWidth h p +
      (rowHeightsOf measure data textWidth f p).sum +
      ((data.data.length : ℚ) + 1) * δ
  have hhead : headerHeightOf measure data textWidth h (p + δ) =
      headerHeightOf measure data textWidth h p + δ := by
    unfold headerHeightOf
    ring
  have hrows := sum_map_le_of_pointwise (rowLinesOf measure data textWidth f)
    (rowHeightOf (lineHeightOf f) (p + δ)) (rowHeightOf (lineHeightOf f) p) δ
    (fun cl _ => rowHeightOf_pad_le (lineHeightOf f) p δ hδ cl)
  have hlen : (rowLinesOf measure data textWidth f).length = data.data.length := by
    unfold rowLinesOf
    exact List.length_map _ _
  rw [hlen] at hrows
  unfold rowHeightsOf
  rw [hhead]
  have hdist : ((data.data.length : ℚ) + 1) * δ =
      (data.data.length : ℚ) * δ + δ := by ring
  rw [hdist]
  linarith

lemma totalHeight_nonneg (measure : ℕ → Bool → List Char → ℚ)
    (data : TableData) (textWidth : ℚ) (f h : ℕ) (p : ℚ) (hp : 0 ≤ p) :
    0 ≤ (calculateLayout measure data textWidth f h p).totalHeight := by
  show 0 ≤ headerHeightOf measure data textWidth h p +
    (rowHeightsOf measure data textWidth f p).sum
  have h1 : 0 ≤ headerHeightOf measure data textWidth h p :=
    add_nonneg (Nat.cast_nonneg _) hp
  have h2 : 0 ≤ (rowHeightsOf measure data textWidth f p).sum := by
    refine List.sum_nonneg ?_
    intro x hx
    obtain ⟨cl, -, rfl⟩ := List.mem_map.mp hx
    unfold rowHeightOf
    exact le_trans (by norm_num) (le_max_right _ 80)
  linarith

/-- Claim C10: whenever the surplus-distribution step runs (the
shrink-phase layout satisfies `totalHeight < 0.85 * availableTableHeight`),
the single recompute with the increased row padding — extra capped at
`min(surplus / (rows + 1), 80)` — still satisfies
`totalHeight ≤ availableTableHeight`: the one-time upscaling can never
overflow the available vertical space. -/
theorem c10_upscale_fits (measure : ℕ → Bool → List Char → ℚ)
    (data : TableData) (textWidth avail : ℚ)
    (hrun : (calculateLayout measure data textWidth
        (solveShrink measure data textWidth avail).fontSize
        (solveShrink measure data textWidth avail).headerFontSize
        (solveShrink measure data textWidth avail).rowPadding).totalHeight <
      avail * (85 / 100)) :
    (finalLayout measure data textWidth avail).totalHeight ≤ avail := by
  set st := solveShrink measure data textWidth avail with hst
  set H := (calculateLayout measure data textWidth st.fontSize
    st.headerFontSize st.rowPadding).totalHeight with hHdef
  have hpad : 20 ≤ st.rowPadding := by
    rw [hst]
    unfold solveShrink
    exact shrinkLoop_pad_ge measure data textWidth avail 16 solverInit
      (by norm_num [solverInit])
  have hH0 : 0 ≤ H :=
    totalHeight_nonneg measure data textWidth st.fontSize st.headerFontSize
      st.rowPadding (by linarith)
  have havail : 0 < avail := by nlinarith
  have hdiff : 0 < avail - H := by nlinarith
  set R : ℚ := (data.data.length : ℚ) with hRdef
  have hR : 0 ≤ R := Nat.cast_nonneg _
  set δ := min ((avail - H) / (R + 1)) 80 with hδdef
  have hδ0 : 0 ≤ δ := le_min (by positivity) (by norm_num)
  have hδle : (R + 1) * δ ≤ avail - H := by
    have h1 : δ ≤ (avail - H) / (R + 1) := min_le_left _ _
    have h2 : (R + 1) * δ ≤ (R + 1) * ((avail - H) / (R + 1)) :=
      mul_le_mul_of_nonneg_left h1 (by positivity)
    have h3 : (R + 1) * ((avail - H) / (R + 1)) = avail - H := by
      field_simp
    linarith
  have hup : upscalePadding measure data textWidth avail st = st.rowPadding + δ := by
    unfold upscalePadding
    rw [if_pos hrun]
  have hshift := calculateLayout_pad_shift measure data textWidth st.fontSize
    st.headerFontSize st.rowPadding δ hδ0
  show (calculateLayout measure data textWidth st.fontSize st.headerFontSize
    (upscalePadding measure data textWidth avail st)).totalHeight ≤ avail
  rw [hup]
  rw [← hRdef] at hshift
  linarith

/-- Witness for C10 at the all-zero measure and an empty available
height comparison made true by a large `avail`. -/
theorem c10_upscale_fits_witness :
    (finalLayout (fun _ _ _ => 0) ⟨none, [[]], [[[]]], [], none⟩ 100
      100000).totalHeight ≤ 100000 := by
  refine c10_upscale_fits (fun _ _ _ => 0) ⟨none, [[]], [[[]]], [], none⟩ 100
    100000 ?_
  norm_num [solveShrink, shrinkLoop, solverInit, calculateLayout,
    headerHeightOf, rowHeightsOf, rowLinesOf, headerLinesOf, maxHeaderLines,
    rowHeightOf, lineHeightOf, getLines, getLinesGo, jsToUpper, shrinkStep]

end TableDesigner
